import Mathlib

/-!
Verification of the spotifydb-engine ETL pipeline (src/main.py).

The script loads two CSV files into dataframes, derives an index column on
the albums frame, sorts the artists frame, creates two fixed SQL tables and
bulk-loads both frames into them. The development below embeds the
dataframe operations, the schema DDL and the orchestration shallowly and
proves the specified properties about them.
-/

namespace SpotifyETL

/-- Scalar cell values of a dataframe: strings, numbers, or nulls (NaN). -/
inductive Value where
  | str (s : String)
  | num (n : Int)
  | null
deriving DecidableEq, Repr

/-- String form of a value, as produced by `astype(str)` inside
`DataLoader.add_index` (a null prints as nan). -/
def Value.pyStr : Value → String
  | .str s => s
  | .num n => toString n
  | .null => "nan"

/-- A pandas DataFrame: named data columns, index-aligned rows of cells, and
an optional named index column (set by `set_index`; `none` stands for the
default range index). Rows are kept as lists aligned with `cols`. -/
structure Frame where
  cols : List String
  rows : List (List Value)
  indexCol : Option (String × List Value)
deriving DecidableEq, Repr

/-- Position of a column label in the header. -/
def Frame.colIdx (f : Frame) (c : String) : Option Nat :=
  f.cols.findIdx? (· == c)

/-- Value of column `c` in row `r` of frame `f` (null when out of range,
a model default that the rectangularity hypotheses rule out). -/
def Frame.cell (f : Frame) (r : List Value) (c : String) : Value :=
  match f.colIdx c with
  | some j => r.getD j .null
  | none => .null

/-- String derived per row by `DataLoader.add_index`: the "-"-join of the
string forms of the given source columns, in the given order (the lambda
applied on axis 1 in the source). -/
def Frame.deriveVal (f : Frame) (srcs : List String) (r : List Value) : String :=
  String.intercalate "-" (srcs.map fun c => (f.cell r c).pyStr)

/-- Column assignment `df[c] = vals`: overwrite the column in place when the
label exists, otherwise append it as the last column. -/
def Frame.setColumn (f : Frame) (c : String) (vals : List Value) : Frame :=
  match f.cols.findIdx? (· == c) with
  | some j =>
    { cols := f.cols
      rows := (f.rows.zip vals).map fun p => p.1.set j p.2
      indexCol := f.indexCol }
  | none =>
    { cols := f.cols ++ [c]
      rows := (f.rows.zip vals).map fun p => p.1 ++ [p.2]
      indexCol := f.indexCol }

/-- Column-to-index move `df.set_index(c, inplace=True)`: the named column is
removed from the data columns and becomes the (named) index, replacing any
previous index. A missing label raises in pandas; the callers below always
assign the column first, so the `none` branch is never reached by them. -/
def Frame.setIndex (f : Frame) (c : String) : Frame :=
  match f.cols.findIdx? (· == c) with
  | some j =>
    { cols := f.cols.eraseIdx j
      rows := f.rows.map fun r => r.eraseIdx j
      indexCol := some (c, f.rows.map fun r => r.getD j .null) }
  | none => f

/-- Model of `DataLoader.add_index(index_name, column_names)`: compute the
"-"-joined derived string per row from the current frame, assign it as a
column named `index_name` (overwriting an existing column of that name),
then make that column the frame's index. -/
def Frame.add_index (f : Frame) (index_name : String) (column_names : List String) : Frame :=
  let withCol :=
    f.setColumn index_name (f.rows.map fun r => Value.str (f.deriveVal column_names r))
  withCol.setIndex index_name

/-- All column labels of a frame, the named index column (when present)
included. Used to count columns across `set_index`. -/
def Frame.allColNames (f : Frame) : List String :=
  (match f.indexCol with
   | some p => [p.1]
   | none => []) ++ f.cols

/-- Ordering on cell values used by `sort_values` ascending: numbers by
value, strings lexicographically, nulls last (the default
na_position of `sort_values` places NaN at the end). A mixed
number/string column raises in pandas; the model totalises the order by
placing numbers before strings. -/
def Value.leb : Value → Value → Bool
  | _, .null => true
  | .null, _ => false
  | .num m, .num n => m ≤ n
  | .num _, .str _ => true
  | .str _, .num _ => false
  | .str a, .str b => a ≤ b

/-- Sort key of a row: its value in column position `j`. -/
def keyAt (j : Nat) (r : List Value) : Value := r.getD j .null

/-- Row comparison used by `sort_values` on the column at position `j`. -/
def rowLe (j : Nat) (r s : List Value) : Prop :=
  Value.leb (keyAt j r) (keyAt j s) = true

instance (j : Nat) : DecidableRel (rowLe j) := fun _ _ =>
  inferInstanceAs (Decidable (_ = true))

instance (j : Nat) : IsTotal (List Value) (rowLe j) := by
  constructor
  intro r s
  unfold rowLe
  cases keyAt j r <;> cases keyAt j s <;>
    simp only [Value.leb, decide_eq_true_eq] <;>
    first
      | left; trivial
      | right; trivial
      | exact le_total _ _

instance (j : Nat) : IsTrans (List Value) (rowLe j) := by
  constructor
  intro r s t
  unfold rowLe
  generalize keyAt j r = a
  generalize keyAt j s = b
  generalize keyAt j t = c
  intro hab hbc
  cases a <;> cases b <;> cases c <;>
    simp_all only [Value.leb, decide_eq_true_eq, Bool.false_eq_true] <;>
    first
      | rfl
      | exact le_trans hab hbc

instance (j : Nat) : IsRefl (List Value) (rowLe j) := by
  constructor
  intro r
  unfold rowLe
  cases keyAt j r <;> simp [Value.leb]

/-- One admissible output of `DataLoader.sort`'s expression
`self.df.sort_values(column_name, axis=0, ascending=True, inplace=False)`.
The default sort kind of `sort_values` is quicksort, which pandas does not
document as stable, so which ascending reordering of tied rows comes back
is unspecified; the contract is `sortValuesSpec` below, and this function
fixes an arbitrary admissible choice so the pipeline model stays
executable (the orchestrator discards the sorted frame, so no claim
depends on which admissible output is chosen). A named index travels with
the rows; a missing column raises in pandas, modelled as the identity. -/
def Frame.sort_values (f : Frame) (column_name : String) : Frame :=
  match f.colIdx column_name with
  | some j =>
    match f.indexCol with
    | none =>
      { cols := f.cols
        rows := f.rows.insertionSort (rowLe j)
        indexCol := none }
    | some p =>
      let ps := (p.2.zip f.rows).insertionSort fun q1 q2 => rowLe j q1.2 q2.2
      { cols := f.cols
        rows := ps.map Prod.snd
        indexCol := some (p.1, ps.map Prod.fst) }
  | none => f

/-- Documented contract of
`sort_values(column_name, axis=0, ascending=True, inplace=False)` with the
default kind (quicksort), for the column at position `j` (the theorems
supply `j` via `colIdx`): the result keeps the columns and the index slot
and its rows are SOME permutation of the input rows that is ascending on
that column, nulls last. pandas documents only the mergesort/stable kinds
as stable, so the contract deliberately does not constrain the order of
tied rows: every ascending-sorted permutation is admissible. -/
abbrev sortValuesSpec (f : Frame) (j : Nat) (g : Frame) : Prop :=
  g.cols = f.cols ∧ g.indexCol = f.indexCol ∧
    g.rows.Perm f.rows ∧ g.rows.Sorted (rowLe j)

/-- A database row. -/
abbrev Row := List Value

/-- Fuel-driven splitting of a list into consecutive chunks of at most `n`
elements; with fuel at least the list length and `0 < n` it yields exactly
the batching that `to_sql(..., chunksize=n)` sends, one chunk per insert
statement. -/
def chunksGo (n : Nat) : Nat → List Row → List (List Row)
  | _, [] => []
  | 0, _ :: _ => []
  | fuel + 1, a :: l => ((a :: l).take n) :: chunksGo n fuel ((a :: l).drop n)

/-- Chunks of at most `n` rows, in order; the fuel `l.length / n + 1`
bounds the number of chunks. -/
def chunksOf (n : Nat) (l : List Row) : List (List Row) :=
  chunksGo n (l.length / n + 1) l

/-- Lengths of the chunks of a list of length `L`, mirroring `chunksGo`
step for step on the length alone. -/
def chunkLens (n : Nat) : Nat → Nat → List Nat
  | _, 0 => []
  | 0, _ + 1 => []
  | fuel + 1, L + 1 => min n (L + 1) :: chunkLens n fuel (L + 1 - n)

/-- Contents of the destination database: table name to stored rows,
in insertion order. -/
def DBState := String → List Row

/-- Append rows to one destination table, leaving the others alone. -/
def dbAppend (db : DBState) (t : String) (new : List Row) : DBState :=
  fun u => if u = t then db u ++ new else db u

/-- Model of `DataLoader.load_to_db`:
`self.df.to_sql(name=t, con=engine, if_exists="append", chunksize=2000, index=False)`.
The data rows (not the index column) are appended to the destination in
order, at most 2000 rows per insert statement; the second component lists
the batches, one per insert issued. -/
def load_to_db (f : Frame) (db : DBState) (t : String) : DBState × List (List Row) :=
  let batches := chunksOf 2000 f.rows
  (batches.foldl (fun d b => dbAppend d t b) db, batches)

/-- Rows of `pd.merge(left, right, left_on=·, right_on=·, how="outer")`:
every key-equal pair of rows, in left-major order, then the right rows
without a key match, each side padded with nulls where unmatched. The
claims below use only membership and row counts, which do not depend on
the precise output order pandas chooses. -/
def mergeOuterRows (lrows rrows : List Row) (lj rj lw rw : Nat) : List Row :=
  (lrows.map fun r =>
      if (rrows.filter fun s => keyAt rj s == keyAt lj r).isEmpty
      then [r ++ List.replicate rw Value.null]
      else (rrows.filter fun s => keyAt rj s == keyAt lj r).map fun s => r ++ s).flatten
    ++ (rrows.filter fun s => !(lrows.any fun r => keyAt lj r == keyAt rj s)).map
        (fun s => List.replicate lw Value.null ++ s)

/-- Model of the kind="outer" case of `DataLoader.merge_df`, the only join
kind the pipeline and the claims exercise (column-name collisions other
than the keys are suffixed by pandas; the claims only concern rows, so
column labels are modelled as the plain concatenation). Missing key
columns raise in pandas, modelled as the identity. -/
def Frame.merge_outer (f right : Frame) (left_on right_on : String) : Frame :=
  match f.colIdx left_on, right.colIdx right_on with
  | some lj, some rj =>
    { cols := f.cols ++ right.cols
      rows := mergeOuterRows f.rows right.rows lj rj f.cols.length right.cols.length
      indexCol := none }
  | _, _ => f

/-- SQL column types used by `db_create_tables`. -/
inductive SqlType where
  | numeric
  | varchar (n : Nat)
  | text
deriving DecidableEq, Repr

/-- One column declaration of a destination table. -/
structure SchemaColumn where
  name : String
  type : SqlType
  primary_key : Bool
deriving DecidableEq, Repr

/-- The fixed artists table declared in `db_create_tables`. -/
def artists_columns : List SchemaColumn :=
  [⟨"index", .numeric, false⟩,
   ⟨"artist_popularity", .numeric, false⟩,
   ⟨"followers", .numeric, false⟩,
   ⟨"genres", .varchar 10240, false⟩,
   ⟨"id", .varchar 256, true⟩,
   ⟨"name", .varchar 256, false⟩,
   ⟨"track_id", .varchar 256, false⟩,
   ⟨"track_name_prev", .varchar 256, false⟩,
   ⟨"type", .varchar 256, false⟩]

/-- The fixed albums table declared in `db_create_tables`. -/
def albums_columns : List SchemaColumn :=
  [⟨"index", .numeric, false⟩,
   ⟨"album_type", .varchar 256, false⟩,
   ⟨"artist_id", .varchar 256, false⟩,
   ⟨"available_markets", .text, false⟩,
   ⟨"external_urls", .varchar 256, false⟩,
   ⟨"href", .varchar 256, false⟩,
   ⟨"id", .varchar 256, true⟩,
   ⟨"images", .text, false⟩,
   ⟨"name", .varchar 256, false⟩,
   ⟨"release_date", .varchar 256, false⟩,
   ⟨"release_date_precision", .varchar 256, false⟩,
   ⟨"total_tracks", .numeric, false⟩,
   ⟨"track_id", .varchar 256, false⟩,
   ⟨"track_name_prev", .varchar 256, false⟩,
   ⟨"uri", .varchar 256, false⟩,
   ⟨"type", .varchar 256, false⟩]

/-- Schema state of the destination database: the tables that exist, with
their column declarations, in creation order. -/
abbrev SchemaDb := List (String × List SchemaColumn)

/-- Whether a table of that name exists. -/
def table_exists (db : SchemaDb) (t : String) : Bool :=
  db.any fun p => p.1 == t

/-- Effect of `MetaData.drop_all()` on one bound table: drop it when it
exists, silently succeed otherwise. -/
def drop_table (db : SchemaDb) (t : String) : SchemaDb :=
  db.filter fun p => p.1 != t

/-- Effect of `MetaData.create_all(checkfirst=True)` on one bound table:
create it only when absent; an existing table is left unchanged whatever
its schema (no migration or alter logic). -/
def create_table (db : SchemaDb) (t : String) (cols : List SchemaColumn) : SchemaDb :=
  if table_exists db t then db else db ++ [(t, cols)]

/-- Model of `db_create_tables(engine, drop_first)`: the two fixed table
definitions are bound to the metadata; when `drop_first` they are dropped
(if they exist) and then both are created with `checkfirst=True`. -/
def db_create_tables (drop_first : Bool) (db : SchemaDb) : SchemaDb :=
  let db1 := if drop_first then drop_table (drop_table db "artists") "albums" else db
  create_table (create_table db1 "artists" artists_columns) "albums" albums_columns

/-- The `DataLoader` class: its only attribute is the dataframe `self.df`. -/
structure DataLoader where
  df : Frame
deriving DecidableEq, Repr

/-- Model of `DataLoader.__init__(filepath, index=None)`:
`df = pd.read_csv(filepath, header=0); self.df = df`. The CSV reader is a
parameter of the model; the `index` argument is accepted and never read. -/
def DataLoader.init (read_csv : String → Frame) (filepath : String)
    (index : Option String) : DataLoader :=
  ⟨read_csv filepath⟩

/-- Model of `DataLoader.add_index`: mutates `self.df` in place. -/
def DataLoader.add_index (dl : DataLoader) (index_name : String)
    (column_names : List String) : DataLoader :=
  ⟨dl.df.add_index index_name column_names⟩

/-- Model of `DataLoader.sort(column_name)`: evaluates
`self.df.sort_values(column_name, axis=0, ascending=True, inplace=False)`
and returns it; `self.df` is never reassigned, so the loader comes back
unchanged as the second component. -/
def DataLoader.sort (dl : DataLoader) (column_name : String) : Frame × DataLoader :=
  (dl.df.sort_values column_name, dl)

/-- Model of `DataLoader.load_to_db(db_engine, db_table_name)`. -/
def DataLoader.load_to_db (dl : DataLoader) (db : DBState) (t : String) :
    DBState × List (List Row) :=
  SpotifyETL.load_to_db dl.df db t

/-- Observable connection events of a run. -/
inductive Ev where
  | connAcquire
  | connRelease
  | step (tag : String)
deriving DecidableEq, Repr

/-- Connection events of `db_engine(host, user, password, name)`:
`create_engine`, `MetaData(bind=engine)`, then `conn = engine.connect()` —
an acquisition whose handle is dropped without ever being closed — and the
engine is returned. The function contains no `close`, no `dispose` and no
`with` block, so it emits no release. -/
def db_engine_events : List Ev :=
  [Ev.step "create_engine", Ev.connAcquire]

/-- Connection events of one complete run of `main`, in program order. No
statement of `main` or of its callees closes the connection or disposes
the engine, and there is no try/finally or context manager around any
step, so no exit path of the run emits a release. -/
def main_events : List Ev :=
  [Ev.step "load artists csv", Ev.step "load albums csv",
   Ev.step "head artists", Ev.step "head albums",
   Ev.step "add album index", Ev.step "sort artists"]
    ++ db_engine_events
    ++ [Ev.step "create tables", Ev.step "load artists to db",
        Ev.step "load albums to db"]

/-- Failures a pipeline step can raise. -/
inductive Err where
  | ioError (msg : String)
  | dbError (msg : String)
deriving DecidableEq, Repr

/-- Outcomes of the external effects consumed by one run of `main`: the two
CSV reads, the engine/connection setup, the DDL, and the two bulk loads.
Each is supplied by the environment and may fail. -/
structure Env where
  artistsCsv : Except Err Frame
  albumsCsv : Except Err Frame
  connectRes : Except Err Unit
  createRes : Except Err Unit
  loadArtistsRes : Except Err Unit
  loadAlbumsRes : Except Err Unit

/-- Row-level effect of `db_create_tables(engine, drop_first)` on the stored
rows: dropping a table discards its rows, creating with `checkfirst=True`
leaves the rows of an existing table alone. `main` calls it with
`drop_first=True`, emptying both destinations before the loads. -/
def db_create_tables_rows (drop_first : Bool) (db : DBState) : DBState :=
  if drop_first then
    fun u => if u = "artists" ∨ u = "albums" then [] else db u
  else db

/-- Model of `main()`: the statements of the orchestrator in program order,
over an environment supplying each external effect's outcome. The source
contains no try/except, so a failing step short-circuits every remaining
statement and the raised error is the outcome of the run; rows appended by
earlier completed steps are left in place. Returns the final database
contents and the run's outcome. -/
def main_run (env : Env) (db0 : DBState) : DBState × Except Err Unit :=
  match env.artistsCsv with
  | .error e => (db0, .error e)
  | .ok adf =>
    match env.albumsCsv with
    | .error e => (db0, .error e)
    | .ok bdf =>
      let artist_loader : DataLoader := ⟨adf⟩
      let album_loader : DataLoader := (⟨bdf⟩ : DataLoader).add_index "index"
        ["artist_id", "name", "release_date"]
      let sorted := artist_loader.sort "name"
      match env.connectRes with
      | .error e => (db0, .error e)
      | .ok _ =>
        match env.createRes with
        | .error e => (db0, .error e)
        | .ok _ =>
          let db1 := db_create_tables_rows true db0
          match env.loadArtistsRes with
          | .error e => (db1, .error e)
          | .ok _ =>
            let db2 := (sorted.2.load_to_db db1 "artists").1
            match env.loadAlbumsRes with
            | .error e => (db2, .error e)
            | .ok _ => ((album_loader.load_to_db db2 "albums").1, .ok ())

/-- An empty destination database. -/
def dbEmpty : DBState := fun _ => []

/-- Concrete two-column frame used to instantiate the theorems. -/
def wFrame1 : Frame :=
  ⟨["a", "b"], [[.num 1, .str "x"], [.num 2, .str "y"]], none⟩

/-- Concrete two-row frame, already sorted by its key column, with a tie. -/
def cSorted : Frame :=
  ⟨["k", "v"], [[.num 1, .num 10], [.num 1, .num 20]], none⟩

/-- The same rows with the tie order swapped: also ascending on the key. -/
def cSwapped : Frame :=
  ⟨["k", "v"], [[.num 1, .num 20], [.num 1, .num 10]], none⟩

/-- Concrete frame with pairwise distinct keys in its name column. -/
def wFrame4 : Frame :=
  ⟨["name", "v"],
   [[.str "b", .num 1], [.str "a", .num 2], [.str "c", .num 3]], none⟩

/-- Concrete left frame whose two rows share one key value. -/
def cLeft : Frame := ⟨["id"], [[.str "a"], [.str "a"]], none⟩

/-- Concrete right frame whose three rows share that same key value. -/
def cRight : Frame :=
  ⟨["artist_id"], [[.str "a"], [.str "a"], [.str "a"]], none⟩

/-- Concrete left frame with pairwise distinct keys. -/
def wLeft : Frame := ⟨["id", "n"], [[.str "a", .num 1], [.str "b", .num 2]], none⟩

/-- Concrete right frame with pairwise distinct keys. -/
def wRight : Frame :=
  ⟨["artist_id", "m"], [[.str "a", .num 10], [.str "c", .num 11]], none⟩

/-- Concrete artists frame whose rows are not sorted by name. -/
def wArtists : Frame := ⟨["name"], [[.str "b"], [.str "a"]], none⟩

/-- Concrete albums frame with the three index source columns. -/
def wAlbums : Frame :=
  ⟨["artist_id", "name", "release_date"],
   [[.str "ar1", .str "al1", .str "2001"], [.str "ar2", .str "al2", .str "2002"]],
   none⟩

/-- Environment of a run in which every external effect succeeds. -/
def wEnvOk : Env :=
  ⟨.ok wArtists, .ok wAlbums, .ok (), .ok (), .ok (), .ok ()⟩

/-- Environment of a run in which the final bulk load fails. -/
def wEnvFail : Env :=
  ⟨.ok wArtists, .ok wAlbums, .ok (), .ok (), .ok (),
   .error (.dbError "lost connection")⟩

/-! ## Theorems -/

theorem length_le_div_succ_mul {n : Nat} (hn : 0 < n) (L : Nat) :
    L ≤ (L / n + 1) * n := by
  have h2 := Nat.mod_lt L hn
  calc L = n * (L / n) + L % n := (Nat.div_add_mod L n).symm
    _ ≤ n * (L / n) + n := Nat.add_le_add_left (le_of_lt h2) _
    _ = (L / n + 1) * n := by ring

theorem chunksGo_flatten {n : Nat} (hn : 0 < n) :
    ∀ (fuel : Nat) (l : List Row), l.length ≤ fuel * n →
      (chunksGo n fuel l).flatten = l := by
  intro fuel
  induction fuel with
  | zero =>
    intro l h
    cases l with
    | nil => rfl
    | cons a t => simp [Nat.zero_mul] at h
  | succ fuel ih =>
    intro l h
    cases l with
    | nil => rfl
    | cons a t =>
      simp only [chunksGo, List.flatten_cons]
      rw [ih _ ?_, List.take_append_drop]
      rw [List.length_drop]
      rw [Nat.succ_mul] at h
      omega

theorem chunksGo_le {n : Nat} :
    ∀ (fuel : Nat) (l : List Row), ∀ b ∈ chunksGo n fuel l, b.length ≤ n := by
  intro fuel
  induction fuel with
  | zero =>
    intro l b hb
    cases l <;> simp [chunksGo] at hb
  | succ fuel ih =>
    intro l b hb
    cases l with
    | nil => simp [chunksGo] at hb
    | cons a t =>
      simp only [chunksGo, List.mem_cons] at hb
      rcases hb with rfl | hb
      · rw [List.length_take]
        exact Nat.min_le_left _ _
      · exact ih _ b hb

theorem map_length_chunksGo {n : Nat} :
    ∀ (fuel : Nat) (l : List Row),
      (chunksGo n fuel l).map List.length = chunkLens n fuel l.length := by
  intro fuel
  induction fuel with
  | zero => intro l; cases l <;> rfl
  | succ fuel ih =>
    intro l
    cases l with
    | nil => rfl
    | cons a t =>
      simp only [chunksGo, List.map_cons, List.length_take, List.length_cons, ih,
        List.length_drop, List.length_cons, chunkLens]

theorem chunksOf_flatten {n : Nat} (hn : 0 < n) (l : List Row) :
    (chunksOf n l).flatten = l :=
  chunksGo_flatten hn _ _ (length_le_div_succ_mul hn _)

theorem foldl_dbAppend_self (t : String) :
    ∀ (bs : List (List Row)) (db : DBState),
      (bs.foldl (fun d b => dbAppend d t b) db) t = db t ++ bs.flatten := by
  intro bs
  induction bs with
  | nil => intro db; simp
  | cons b bs ih =>
    intro db
    simp only [List.foldl_cons, ih, List.flatten_cons, ← List.append_assoc]
    congr 1
    simp [dbAppend]

theorem foldl_dbAppend_other {t u : String} (hu : u ≠ t) :
    ∀ (bs : List (List Row)) (db : DBState),
      (bs.foldl (fun d b => dbAppend d t b) db) u = db u := by
  intro bs
  induction bs with
  | nil => intro db; rfl
  | cons b bs ih =>
    intro db
    simp only [List.foldl_cons, ih]
    simp [dbAppend, hu]

/-- C3: the bulk loader appends all rows of the table to the destination in
batches of at most 2000 rows per insert, preserving row order and never
truncating or upserting; a 4500-row table issues 3 inserts of 2000, 2000
and 500 rows and leaves exactly 4500 newly appended rows behind. -/
theorem load_to_db_spec (f : Frame) (db : DBState) (t : String) :
    (load_to_db f db t).1 t = db t ++ f.rows ∧
    (∀ b ∈ (load_to_db f db t).2, b.length ≤ 2000) ∧
    ((load_to_db f db t).2).flatten = f.rows ∧
    (f.rows.length = 4500 →
      (load_to_db f db t).2.map List.length = [2000, 2000, 500] ∧
      (load_to_db f db t).2.length = 3 ∧
      ((load_to_db f db t).1 t).length = (db t).length + 4500) := by
  have hfl : (chunksOf 2000 f.rows).flatten = f.rows :=
    chunksOf_flatten (by norm_num) _
  have h1 : (load_to_db f db t).1 t = db t ++ f.rows := by
    show ((chunksOf 2000 f.rows).foldl (fun d b => dbAppend d t b) db) t = _
    rw [foldl_dbAppend_self, hfl]
  refine ⟨h1, ?_, hfl, ?_⟩
  · intro b hb
    exact chunksGo_le _ _ b hb
  · intro h4500
    have hml : (load_to_db f db t).2.map List.length = [2000, 2000, 500] := by
      show (chunksOf 2000 f.rows).map List.length = _
      rw [chunksOf, map_length_chunksGo, h4500]
      decide
    refine ⟨hml, ?_, ?_⟩
    · have hl := congrArg List.length hml
      simpa using hl
    · rw [h1, List.length_append, h4500]

/-- Evaluation of C3 at a concrete frame and database. -/
theorem load_to_db_spec_witness :
    (load_to_db wFrame1 dbEmpty "artists").1 "artists" = dbEmpty "artists" ++ wFrame1.rows ∧
    (∀ b ∈ (load_to_db wFrame1 dbEmpty "artists").2, b.length ≤ 2000) ∧
    ((load_to_db wFrame1 dbEmpty "artists").2).flatten = wFrame1.rows ∧
    (wFrame1.rows.length = 4500 →
      (load_to_db wFrame1 dbEmpty "artists").2.map List.length = [2000, 2000, 500] ∧
      (load_to_db wFrame1 dbEmpty "artists").2.length = 3 ∧
      ((load_to_db wFrame1 dbEmpty "artists").1 "artists").length
        = (dbEmpty "artists").length + 4500) :=
  load_to_db_spec wFrame1 dbEmpty "artists"

/-- C10: the `index` argument of the constructor is never read, so any two
values of it produce the same loaded table. -/
theorem dataloader_init_ignores_index (read_csv : String → Frame) (filepath : String)
    (i1 i2 : Option String) :
    DataLoader.init read_csv filepath i1 = DataLoader.init read_csv filepath i2 := rfl

/-- C6 counterexample: the completed run acquires the connection but no exit
path of `main` emits a release, refuting guaranteed release on all exit
paths. -/
theorem main_events_no_release :
    Ev.connAcquire ∈ main_events ∧ Ev.connRelease ∉ main_events := by
  decide

/-- C6 (amended): every run explicitly acquires the database connection
exactly once, inside `db_engine`, and never explicitly releases it — no
exit path of the program closes the connection or disposes the engine. -/
theorem main_events_acquire_once_never_released :
    main_events.count Ev.connAcquire = 1 ∧ main_events.count Ev.connRelease = 0 := by
  decide

theorem findIdx?_cons_eq {α : Type} (a : α) (l : List α) (p : α → Bool) :
    (a :: l).findIdx? p = if p a then some 0 else (l.findIdx? p).map (· + 1) := by
  simp [List.findIdx?_cons]

theorem findIdx?_beq_none {α : Type} [BEq α] [LawfulBEq α] {l : List α} {n : α}
    (h : n ∉ l) : l.findIdx? (· == n) = none := by
  rw [List.findIdx?_eq_none_iff]
  intro x hx
  exact beq_eq_false_iff_ne.mpr fun hxn => h (hxn ▸ hx)

theorem findIdx?_append_self {α : Type} [BEq α] [LawfulBEq α] {l : List α} {n : α}
    (h : n ∉ l) : (l ++ [n]).findIdx? (· == n) = some l.length := by
  induction l with
  | nil => simp [List.findIdx?_cons]
  | cons a t ih =>
    simp only [List.mem_cons, not_or] at h
    have ha : (a == n) = false := beq_eq_false_iff_ne.mpr (Ne.symm h.1)
    rw [List.cons_append, findIdx?_cons_eq, ha, if_neg (by simp), ih h.2]
    simp

theorem findIdx?_lt_length {α : Type} {l : List α} {p : α → Bool} {j : Nat}
    (h : l.findIdx? p = some j) : j < l.length := by
  induction l generalizing j with
  | nil => simp [List.findIdx?] at h
  | cons a t ih =>
    rw [findIdx?_cons_eq] at h
    by_cases hp : p a
    · rw [if_pos hp] at h
      cases h
      simp
    · rw [if_neg hp] at h
      rcases Option.map_eq_some'.mp h with ⟨k, hk, rfl⟩
      have hk2 := ih hk
      simp only [List.length_cons]
      omega

theorem erase_eq_eraseIdx_of_findIdx? {α : Type} [BEq α] [LawfulBEq α]
    {l : List α} {a : α} {j : Nat} (h : l.findIdx? (· == a) = some j) :
    l.erase a = l.eraseIdx j := by
  induction l generalizing j with
  | nil => simp [List.findIdx?] at h
  | cons b t ih =>
    rw [findIdx?_cons_eq] at h
    by_cases hb : b == a
    · rw [if_pos hb] at h
      cases h
      simp [List.erase_cons, hb]
    · rw [if_neg hb] at h
      rcases Option.map_eq_some'.mp h with ⟨k, hk, rfl⟩
      simp [List.erase_cons, hb, List.eraseIdx_cons_succ, ih hk]

theorem zip_map_self {α β : Type} (l : List α) (g : α → β) :
    l.zip (l.map g) = l.map fun a => (a, g a) := by
  simpa using (List.zip_map' id g l)

theorem getD_append_self {α : Type} (l : List α) (x d : α) :
    (l ++ [x]).getD l.length d = x := by
  simp [List.getD_append_right, List.getD]

theorem eraseIdx_append_self {α : Type} (l : List α) (x : α) :
    (l ++ [x]).eraseIdx l.length = l := by
  induction l with
  | nil => rfl
  | cons a t ih => simp [List.eraseIdx, ih]

theorem set_eraseIdx {α : Type} (l : List α) (j : Nat) (x : α) :
    (l.set j x).eraseIdx j = l.eraseIdx j := by
  induction l generalizing j with
  | nil => rfl
  | cons a t ih =>
    cases j with
    | zero => rfl
    | succ j => simp [List.set, List.eraseIdx, ih]

theorem getD_set_self {α : Type} (l : List α) (j : Nat) (x d : α)
    (h : j < l.length) : (l.set j x).getD j d = x := by
  simp [List.getD, List.getElem?_set_self, h]

/-- Shape of `add_index` when the new column name is fresh: the data columns
and rows come back unchanged and the derived values become the index. -/
theorem add_index_fresh (f : Frame) (index_name : String) (column_names : List String)
    (hfresh : index_name ∉ f.cols)
    (hrect : ∀ r ∈ f.rows, r.length = f.cols.length) :
    f.add_index index_name column_names =
      ⟨f.cols, f.rows,
       some (index_name, f.rows.map fun r => Value.str (f.deriveVal column_names r))⟩ := by
  have hnone : f.cols.findIdx? (· == index_name) = none := findIdx?_beq_none hfresh
  have happ : (f.cols ++ [index_name]).findIdx? (· == index_name) = some f.cols.length :=
    findIdx?_append_self hfresh
  unfold Frame.add_index Frame.setColumn Frame.setIndex
  simp only [hnone, happ, zip_map_self, List.map_map, Function.comp_def]
  congr 1
  · exact eraseIdx_append_self _ _
  · conv_rhs => rw [← List.map_id f.rows]
    apply List.map_congr_left
    intro r hr
    rw [← hrect r hr]
    exact eraseIdx_append_self _ _
  · congr 1
    congr 1
    apply List.map_congr_left
    intro r hr
    rw [← hrect r hr]
    exact getD_append_self _ _ _

/-- Shape of `add_index` when a column of that name already exists at
position `j`: the old column is removed from the data columns and the
derived values become the index. -/
theorem add_index_overwrite (f : Frame) (index_name : String) (column_names : List String)
    (j : Nat) (hj : f.cols.findIdx? (· == index_name) = some j)
    (hrect : ∀ r ∈ f.rows, r.length = f.cols.length) :
    f.add_index index_name column_names =
      ⟨f.cols.eraseIdx j, f.rows.map fun r => r.eraseIdx j,
       some (index_name, f.rows.map fun r => Value.str (f.deriveVal column_names r))⟩ := by
  have hjlt : j < f.cols.length := findIdx?_lt_length hj
  unfold Frame.add_index Frame.setColumn Frame.setIndex
  simp only [hj, zip_map_self, List.map_map, Function.comp_def]
  congr 1
  · apply List.map_congr_left
    intro r hr
    exact set_eraseIdx _ _ _
  · congr 1
    congr 1
    apply List.map_congr_left
    intro r hr
    exact getD_set_self _ _ _ _ (by rw [hrect r hr]; exact hjlt)

/-- C1: `add_index` leaves the number of rows unchanged and yields exactly
one additional column named `index_name` (installed as the index) whose
value per row is the "-"-joined string forms of the source columns in
source order; an existing column of that name is overwritten (it moves out
of the data columns and the index holds the derived values). -/
theorem add_index_spec (f : Frame) (index_name : String) (column_names : List String)
    (hrect : ∀ r ∈ f.rows, r.length = f.cols.length)
    (hsrcs : ∀ c ∈ column_names, c ∈ f.cols)
    (hidx : f.indexCol = none) :
    (f.add_index index_name column_names).rows.length = f.rows.length ∧
    (f.add_index index_name column_names).indexCol
      = some (index_name, f.rows.map fun r => Value.str (f.deriveVal column_names r)) ∧
    (f.add_index index_name column_names).cols = f.cols.erase index_name ∧
    (index_name ∉ f.cols →
      (f.add_index index_name column_names).allColNames
        = index_name :: f.allColNames) := by
  by_cases hn : index_name ∈ f.cols
  · rcases hfi : f.cols.findIdx? (· == index_name) with _ | j
    · exact absurd hn (by
        have := List.findIdx?_eq_none_iff.mp hfi
        intro hmem
        have hx := this index_name hmem
        simp at hx)
    · rw [add_index_overwrite f index_name column_names j hfi hrect]
      refine ⟨by simp, rfl, (erase_eq_eraseIdx_of_findIdx? hfi).symm ▸ rfl, ?_⟩
      intro hno
      exact absurd hn hno
  · rw [add_index_fresh f index_name column_names hn hrect]
    refine ⟨rfl, rfl, ?_, ?_⟩
    · rw [List.erase_of_not_mem hn]
    · intro _
      simp [Frame.allColNames, hidx]

/-- Evaluation of C1 at a concrete two-column frame. -/
theorem add_index_spec_witness :
    (wFrame1.add_index "idx" ["a", "b"]).rows.length = wFrame1.rows.length ∧
    (wFrame1.add_index "idx" ["a", "b"]).indexCol
      = some ("idx", wFrame1.rows.map fun r => Value.str (wFrame1.deriveVal ["a", "b"] r)) ∧
    (wFrame1.add_index "idx" ["a", "b"]).cols = wFrame1.cols.erase "idx" ∧
    ("idx" ∉ wFrame1.cols →
      (wFrame1.add_index "idx" ["a", "b"]).allColNames = "idx" :: wFrame1.allColNames) :=
  add_index_spec wFrame1 "idx" ["a", "b"] (by decide) (by decide) rfl

/-- C9: `load_to_db` writes with index=False, so after `add_index` installed
the derived column as the frame's index, the rows written to the
destination are exactly the original data rows — the derived index values
are excluded and no data column named after the index remains. -/
theorem load_to_db_excludes_index (f : Frame) (index_name : String)
    (column_names : List String) (db : DBState) (t : String)
    (hfresh : index_name ∉ f.cols)
    (hrect : ∀ r ∈ f.rows, r.length = f.cols.length) :
    (load_to_db (f.add_index index_name column_names) db t).1 t = db t ++ f.rows ∧
    (f.add_index index_name column_names).indexCol
      = some (index_name, f.rows.map fun r => Value.str (f.deriveVal column_names r)) ∧
    index_name ∉ (f.add_index index_name column_names).cols := by
  rw [add_index_fresh f index_name column_names hfresh hrect]
  refine ⟨?_, rfl, hfresh⟩
  show ((chunksOf 2000 f.rows).foldl (fun d b => dbAppend d t b) db) t = _
  rw [foldl_dbAppend_self, chunksOf_flatten (by norm_num)]

theorem table_exists_append (l1 l2 : SchemaDb) (t : String) :
    table_exists (l1 ++ l2) t = (table_exists l1 t || table_exists l2 t) := by
  simp [table_exists, List.any_append]

theorem table_exists_drop_self (db : SchemaDb) (t : String) :
    table_exists (drop_table db t) t = false := by
  simp only [table_exists, drop_table]
  rw [List.any_eq_false]
  intro p hp
  have h2 := (List.mem_filter.mp hp).2
  simp only [bne_iff_ne, ne_eq] at h2
  simp [h2]

theorem table_exists_drop_mono (db : SchemaDb) (u t : String)
    (h : table_exists db t = false) : table_exists (drop_table db u) t = false := by
  simp only [table_exists, drop_table] at *
  rw [List.any_eq_false] at *
  intro p hp
  exact h p (List.mem_filter.mp hp).1

/-- C4: applying the schema with dropFirst=true and then applying it again
with dropFirst=false is idempotent — the second application creates
nothing (both tables already exist) and returns the schema state
unchanged. -/
theorem db_create_tables_idempotent (db : SchemaDb) :
    db_create_tables false (db_create_tables true db) = db_create_tables true db := by
  have e1 : table_exists (drop_table (drop_table db "artists") "albums") "artists" = false :=
    table_exists_drop_mono _ _ _ (table_exists_drop_self db "artists")
  have e2 : table_exists (drop_table (drop_table db "artists") "albums") "albums" = false :=
    table_exists_drop_self _ _
  have hone : table_exists [("artists", artists_columns)] "albums" = false := by decide
  have hA : table_exists [("artists", artists_columns)] "artists" = true := by decide
  have hB : table_exists [("albums", albums_columns)] "albums" = true := by decide
  have hfirst : db_create_tables true db
      = drop_table (drop_table db "artists") "albums"
          ++ [("artists", artists_columns)] ++ [("albums", albums_columns)] := by
    simp only [db_create_tables, create_table]
    simp [e1, e2, table_exists_append, hone]
  rw [hfirst]
  have hpair1 : table_exists
      [("artists", artists_columns), ("albums", albums_columns)] "artists" = true := by
    decide
  have hpair2 : table_exists
      [("artists", artists_columns), ("albums", albums_columns)] "albums" = true := by
    decide
  have h1 : table_exists (drop_table (drop_table db "artists") "albums"
      ++ [("artists", artists_columns), ("albums", albums_columns)]) "artists" = true := by
    rw [table_exists_append, hpair1]
    simp
  have h2 : table_exists (drop_table (drop_table db "artists") "albums"
      ++ [("artists", artists_columns), ("albums", albums_columns)]) "albums" = true := by
    rw [table_exists_append, hpair2]
    simp
  simp only [db_create_tables, create_table]
  simp [h1, h2]

/-- C7: no step of the pipeline catches errors — a failing step makes the
run end with exactly that error, every later statement is skipped, and
rows appended by earlier completed steps stay in the database (no
rollback). Each conjunct treats the first failing step in program order. -/
theorem main_run_propagates (env : Env) (db0 : DBState) :
    (∀ e, env.artistsCsv = .error e → main_run env db0 = (db0, .error e)) ∧
    (∀ adf e, env.artistsCsv = .ok adf → env.albumsCsv = .error e →
      main_run env db0 = (db0, .error e)) ∧
    (∀ adf bdf e, env.artistsCsv = .ok adf → env.albumsCsv = .ok bdf →
      env.connectRes = .error e → main_run env db0 = (db0, .error e)) ∧
    (∀ adf bdf e, env.artistsCsv = .ok adf → env.albumsCsv = .ok bdf →
      env.connectRes = .ok () → env.createRes = .error e →
      main_run env db0 = (db0, .error e)) ∧
    (∀ adf bdf e, env.artistsCsv = .ok adf → env.albumsCsv = .ok bdf →
      env.connectRes = .ok () → env.createRes = .ok () →
      env.loadArtistsRes = .error e →
      main_run env db0 = (db_create_tables_rows true db0, .error e)) ∧
    (∀ adf bdf e, env.artistsCsv = .ok adf → env.albumsCsv = .ok bdf →
      env.connectRes = .ok () → env.createRes = .ok () →
      env.loadArtistsRes = .ok () → env.loadAlbumsRes = .error e →
      (main_run env db0).2 = .error e ∧
      (main_run env db0).1 "artists" = adf.rows) := by
  rcases env with ⟨aCsv, bCsv, cRes, dRes, laRes, lbRes⟩
  refine ⟨?_, ?_, ?_, ?_, ?_, ?_⟩
  · rintro e rfl
    rfl
  · rintro adf e rfl rfl
    rfl
  · rintro adf bdf e rfl rfl rfl
    rfl
  · rintro adf bdf e rfl rfl rfl rfl
    rfl
  · rintro adf bdf e rfl rfl rfl rfl rfl
    rfl
  · rintro adf bdf e rfl rfl rfl rfl rfl rfl
    refine ⟨rfl, ?_⟩
    show ((chunksOf 2000 adf.rows).foldl (fun d b => dbAppend d "artists" b)
      (db_create_tables_rows true db0)) "artists" = adf.rows
    rw [foldl_dbAppend_self, chunksOf_flatten (by norm_num)]
    show (if ("artists" : String) = "artists" ∨ ("artists" : String) = "albums"
      then ([] : List Row) else db0 "artists") ++ adf.rows = adf.rows
    rw [if_pos (Or.inl rfl), List.nil_append]

/-- Evaluation of C7 at a run whose final bulk load fails: the error is the
run's outcome and the loaded artists rows are kept. -/
theorem main_run_propagates_witness :
    (∀ e, wEnvFail.artistsCsv = .error e → main_run wEnvFail dbEmpty = (dbEmpty, .error e)) ∧
    (∀ adf e, wEnvFail.artistsCsv = .ok adf → wEnvFail.albumsCsv = .error e →
      main_run wEnvFail dbEmpty = (dbEmpty, .error e)) ∧
    (∀ adf bdf e, wEnvFail.artistsCsv = .ok adf → wEnvFail.albumsCsv = .ok bdf →
      wEnvFail.connectRes = .error e → main_run wEnvFail dbEmpty = (dbEmpty, .error e)) ∧
    (∀ adf bdf e, wEnvFail.artistsCsv = .ok adf → wEnvFail.albumsCsv = .ok bdf →
      wEnvFail.connectRes = .ok () → wEnvFail.createRes = .error e →
      main_run wEnvFail dbEmpty = (dbEmpty, .error e)) ∧
    (∀ adf bdf e, wEnvFail.artistsCsv = .ok adf → wEnvFail.albumsCsv = .ok bdf →
      wEnvFail.connectRes = .ok () → wEnvFail.createRes = .ok () →
      wEnvFail.loadArtistsRes = .error e →
      main_run wEnvFail dbEmpty = (db_create_tables_rows true dbEmpty, .error e)) ∧
    (∀ adf bdf e, wEnvFail.artistsCsv = .ok adf → wEnvFail.albumsCsv = .ok bdf →
      wEnvFail.connectRes = .ok () → wEnvFail.createRes = .ok () →
      wEnvFail.loadArtistsRes = .ok () → wEnvFail.loadAlbumsRes = .error e →
      (main_run wEnvFail dbEmpty).2 = .error e ∧
      (main_run wEnvFail dbEmpty).1 "artists" = adf.rows) :=
  main_run_propagates wEnvFail dbEmpty

/-- C8: `DataLoader.sort` never changes the stored dataframe — the sorted
frame is only returned — and, the orchestrator discarding that return
value, a successful run bulk-loads the artists rows in their original CSV
order. -/
theorem sort_leaves_loader_unchanged :
    (∀ (dl : DataLoader) (column_name : String), (dl.sort column_name).2 = dl) ∧
    (∀ env (db0 : DBState) adf bdf, env.artistsCsv = .ok adf →
      env.albumsCsv = .ok bdf →
      env.connectRes = .ok () → env.createRes = .ok () →
      env.loadArtistsRes = .ok () → env.loadAlbumsRes = .ok () →
      (main_run env db0).1 "artists" = adf.rows) := by
  constructor
  · intro dl column_name
    rfl
  · intro env db0 adf bdf h1 h2 h3 h4 h5 h6
    rcases env with ⟨aCsv, bCsv, cRes, dRes, laRes, lbRes⟩
    cases h1
    cases h2
    cases h3
    cases h4
    cases h5
    cases h6
    show ((chunksOf 2000 (DataLoader.add_index ⟨bdf⟩ "index"
        ["artist_id", "name", "release_date"]).df.rows).foldl
        (fun d b => dbAppend d "albums" b)
        ((chunksOf 2000 adf.rows).foldl (fun d b => dbAppend d "artists" b)
          (db_create_tables_rows true db0))) "artists" = adf.rows
    rw [foldl_dbAppend_other (by decide)]
    rw [foldl_dbAppend_self, chunksOf_flatten (by norm_num)]
    show (if ("artists" : String) = "artists" ∨ ("artists" : String) = "albums"
      then ([] : List Row) else db0 "artists") ++ adf.rows = adf.rows
    rw [if_pos (Or.inl rfl), List.nil_append]

/-- Evaluation of C8 on a successful run whose artists frame is not sorted
by name: the destination receives the rows in CSV order. -/
theorem sort_leaves_loader_unchanged_witness :
    ((DataLoader.mk wArtists).sort "name").2 = DataLoader.mk wArtists ∧
    (main_run wEnvOk dbEmpty).1 "artists" = wArtists.rows :=
  ⟨(sort_leaves_loader_unchanged.1 ⟨wArtists⟩ "name"),
   sort_leaves_loader_unchanged.2 wEnvOk dbEmpty wArtists wAlbums rfl rfl rfl rfl rfl rfl⟩

/-- Evaluation of C9 at a concrete albums-shaped frame. -/
theorem load_to_db_excludes_index_witness :
    (load_to_db (wAlbums.add_index "index" ["artist_id", "name", "release_date"])
        dbEmpty "albums").1 "albums" = dbEmpty "albums" ++ wAlbums.rows ∧
    (wAlbums.add_index "index" ["artist_id", "name", "release_date"]).indexCol
      = some ("index", wAlbums.rows.map fun r =>
          Value.str (wAlbums.deriveVal ["artist_id", "name", "release_date"] r)) ∧
    "index" ∉ (wAlbums.add_index "index" ["artist_id", "name", "release_date"]).cols :=
  load_to_db_excludes_index wAlbums "index" ["artist_id", "name", "release_date"]
    dbEmpty "albums" (by decide) (by decide)

theorem countP_eq_sum_map {β : Type} (p : β → Bool) (B : List β) :
    B.countP p = (B.map fun b => if p b then (1 : Nat) else 0).sum := by
  induction B with
  | nil => rfl
  | cons b B ih =>
    rw [List.countP_cons, List.map_cons, List.sum_cons, ih, Nat.add_comm]

theorem sum_map_add {β : Type} (f g : β → Nat) (B : List β) :
    (B.map fun b => f b + g b).sum = (B.map f).sum + (B.map g).sum := by
  induction B with
  | nil => rfl
  | cons b B ih =>
    simp only [List.map_cons, List.sum_cons, ih]
    omega

theorem sum_countP_comm {α β : Type} (p : α → β → Bool) (A : List α) (B : List β) :
    (A.map fun x => B.countP (p x)).sum = (B.map fun y => A.countP fun x => p x y).sum := by
  induction A with
  | nil =>
    simp only [List.map_nil, List.sum_nil, List.countP_nil]
    induction B with
    | nil => rfl
    | cons b B ihb => simpa using ihb
  | cons a A ih =>
    rw [List.map_cons, List.sum_cons, ih]
    have hpt : (B.map fun y => (a :: A).countP fun x => p x y)
        = B.map fun y => (A.countP fun x => p x y) + if p a y then 1 else 0 := by
      apply List.map_congr_left
      intro y hy
      rw [List.countP_cons]
    rw [hpt, sum_map_add, ← countP_eq_sum_map, Nat.add_comm]

theorem countP_not_add {β : Type} (p : β → Bool) (B : List β) :
    B.countP p + B.countP (fun b => !(p b)) = B.length := by
  induction B with
  | nil => rfl
  | cons b B ih =>
    rw [List.countP_cons, List.countP_cons, List.length_cons]
    by_cases hb : p b = true <;> simp [hb] <;> omega

theorem countP_le_one_of_nodup_keys {rj : Nat} (rrows : List Row) (k : Value)
    (hnd : (rrows.map (keyAt rj)).Nodup) :
    rrows.countP (fun s => keyAt rj s == k) ≤ 1 := by
  induction rrows with
  | nil => simp
  | cons s t ih =>
    rw [List.map_cons, List.nodup_cons] at hnd
    rw [List.countP_cons]
    by_cases hs : (keyAt rj s == k) = true
    · have ht : t.countP (fun u => keyAt rj u == k) = 0 := by
        rw [List.countP_eq_zero]
        intro u hu huk
        apply hnd.1
        rw [beq_iff_eq] at hs huk
        rw [hs, ← huk]
        exact List.mem_map_of_mem _ hu
      rw [ht, hs]
      simp
    · rw [Bool.not_eq_true] at hs
      rw [hs]
      simpa using ih hnd.2

theorem mergeOuterRows_length (lrows rrows : List Row) (lj rj lw rw2 : Nat) :
    (mergeOuterRows lrows rrows lj rj lw rw2).length
      = (lrows.map fun r =>
          if rrows.countP (fun s => keyAt rj s == keyAt lj r) = 0 then 1
          else rrows.countP (fun s => keyAt rj s == keyAt lj r)).sum
        + rrows.countP (fun s => !(lrows.any fun r => keyAt lj r == keyAt rj s)) := by
  unfold mergeOuterRows
  rw [List.length_append, List.length_flatten, List.map_map, List.length_map,
    ← List.countP_eq_length_filter]
  congr 1
  congr 1
  apply List.map_congr_left
  intro r hr
  simp only [Function.comp_def]
  by_cases hemp : ((rrows.filter fun s => keyAt rj s == keyAt lj r).isEmpty) = true
  · rw [if_pos hemp]
    have h0 : rrows.countP (fun s => keyAt rj s == keyAt lj r) = 0 := by
      rw [List.countP_eq_length_filter, List.isEmpty_iff.mp hemp]
      rfl
    rw [h0]
    simp
  · rw [if_neg hemp, List.length_map, ← List.countP_eq_length_filter]
    have hne : ¬(rrows.countP (fun s => keyAt rj s == keyAt lj r) = 0) := by
      intro h0
      apply hemp
      rw [List.countP_eq_length_filter] at h0
      rw [List.isEmpty_iff]
      exact List.length_eq_zero.mp h0
    rw [if_neg hne]

/-- C5 counterexample: an outer merge of a 2-row left table and a 3-row
right table sharing one key value yields 6 rows, exceeding the claimed
upper bound of `|left| + |right| = 5`. -/
theorem merge_outer_counterexample :
    ¬ ((cLeft.merge_outer cRight "id" "artist_id").rows.length
        ≤ cLeft.rows.length + cRight.rows.length) := by
  decide

/-- C5 (amended): an outer merge keeps every row of both inputs at least
once and has at least `max(|left|, |right|)` rows; the upper bound
`|left| + |right|` holds provided the right key column values are pairwise
distinct (with duplicated keys on both sides the join is row-cartesian per
key and can exceed it). -/
theorem merge_outer_spec (f right : Frame) (left_on right_on : String) (lj rj : Nat)
    (hlj : f.colIdx left_on = some lj) (hrj : right.colIdx right_on = some rj)
    (hlrect : ∀ r ∈ f.rows, r.length = f.cols.length) :
    (∀ r ∈ f.rows, ∃ o ∈ (f.merge_outer right left_on right_on).rows,
        o.take f.cols.length = r) ∧
    (∀ s ∈ right.rows, ∃ o ∈ (f.merge_outer right left_on right_on).rows,
        o.drop f.cols.length = s) ∧
    max f.rows.length right.rows.length
      ≤ (f.merge_outer right left_on right_on).rows.length ∧
    ((right.rows.map (keyAt rj)).Nodup →
      (f.merge_outer right left_on right_on).rows.length
        ≤ f.rows.length + right.rows.length) := by
  have hm : (f.merge_outer right left_on right_on).rows
      = mergeOuterRows f.rows right.rows lj rj f.cols.length right.cols.length := by
    unfold Frame.merge_outer
    rw [hlj, hrj]
  rw [hm]
  refine ⟨?_, ?_, ?_, ?_⟩
  · -- every left row survives as a prefix of some output row
    intro r hr
    unfold mergeOuterRows
    by_cases hemp : ((right.rows.filter fun s => keyAt rj s == keyAt lj r).isEmpty) = true
    · refine ⟨r ++ List.replicate right.cols.length Value.null, ?_, ?_⟩
      · apply List.mem_append_left
        rw [List.mem_flatten]
        refine ⟨if (right.rows.filter fun s => keyAt rj s == keyAt lj r).isEmpty
            then [r ++ List.replicate right.cols.length Value.null]
            else (right.rows.filter fun s => keyAt rj s == keyAt lj r).map fun s => r ++ s,
          List.mem_map_of_mem _ hr, ?_⟩
        rw [if_pos hemp]
        exact List.mem_singleton_self _
      · rw [← hlrect r hr]
        exact List.take_left _ _
    · obtain ⟨s0, hs0⟩ := List.exists_mem_of_ne_nil
        (right.rows.filter fun s => keyAt rj s == keyAt lj r)
        (fun hnil => hemp (by rw [List.isEmpty_iff]; exact hnil))
      refine ⟨r ++ s0, ?_, ?_⟩
      · apply List.mem_append_left
        rw [List.mem_flatten]
        refine ⟨if (right.rows.filter fun s => keyAt rj s == keyAt lj r).isEmpty
            then [r ++ List.replicate right.cols.length Value.null]
            else (right.rows.filter fun s => keyAt rj s == keyAt lj r).map fun s => r ++ s,
          List.mem_map_of_mem _ hr, ?_⟩
        rw [if_neg hemp]
        exact List.mem_map_of_mem _ hs0
      · rw [← hlrect r hr]
        exact List.take_left _ _
  · -- every right row survives as a suffix of some output row
    intro s hs
    unfold mergeOuterRows
    by_cases hany : (f.rows.any fun r => keyAt lj r == keyAt rj s) = true
    · obtain ⟨r, hrmem, hkey⟩ := List.any_eq_true.mp hany
      have hsm : s ∈ right.rows.filter fun u => keyAt rj u == keyAt lj r := by
        apply List.mem_filter.mpr
        refine ⟨hs, ?_⟩
        rw [beq_iff_eq] at hkey ⊢
        exact hkey.symm
      have hemp : ((right.rows.filter fun u => keyAt rj u == keyAt lj r).isEmpty) = false := by
        rcases h : (right.rows.filter fun u => keyAt rj u == keyAt lj r).isEmpty with _ | _
        · rfl
        · rw [List.isEmpty_iff] at h
          rw [h] at hsm
          cases hsm
      refine ⟨r ++ s, ?_, ?_⟩
      · apply List.mem_append_left
        rw [List.mem_flatten]
        refine ⟨if (right.rows.filter fun u => keyAt rj u == keyAt lj r).isEmpty
            then [r ++ List.replicate right.cols.length Value.null]
            else (right.rows.filter fun u => keyAt rj u == keyAt lj r).map fun u => r ++ u,
          List.mem_map_of_mem _ hrmem, ?_⟩
        rw [if_neg (by rw [hemp]; exact Bool.false_ne_true)]
        exact List.mem_map_of_mem _ hsm
      · rw [← hlrect r hrmem]
        exact List.drop_left _ _
    · refine ⟨List.replicate f.cols.length Value.null ++ s, ?_, ?_⟩
      · apply List.mem_append_right
        apply List.mem_map_of_mem
        apply List.mem_filter.mpr
        refine ⟨hs, ?_⟩
        rw [Bool.not_eq_true] at hany
        rw [hany]
        rfl
      · exact List.drop_left' (List.length_replicate _ _)
  · -- the output has at least max(|left|, |right|) rows
    rw [mergeOuterRows_length, Nat.max_le]
    constructor
    · have h1 : f.rows.length ≤ (f.rows.map fun r =>
          if right.rows.countP (fun s => keyAt rj s == keyAt lj r) = 0 then 1
          else right.rows.countP (fun s => keyAt rj s == keyAt lj r)).sum := by
        have hlen : f.rows.length = (f.rows.map fun _ => (1 : Nat)).sum := by simp
        rw [hlen]
        apply List.sum_le_sum
        intro r hr
        by_cases h0 : right.rows.countP (fun s => keyAt rj s == keyAt lj r) = 0
        · rw [if_pos h0]
        · rw [if_neg h0]
          omega
      exact le_trans h1 (Nat.le_add_right _ _)
    · have hsplit := countP_not_add
        (fun s => f.rows.any fun r => keyAt lj r == keyAt rj s) right.rows
      have hcomm := sum_countP_comm
        (fun r s => keyAt rj s == keyAt lj r) f.rows right.rows
      have hmge : (f.rows.map fun r =>
            right.rows.countP fun s => keyAt rj s == keyAt lj r).sum
          ≤ (f.rows.map fun r =>
            if right.rows.countP (fun s => keyAt rj s == keyAt lj r) = 0 then 1
            else right.rows.countP (fun s => keyAt rj s == keyAt lj r)).sum := by
        apply List.sum_le_sum
        intro r hr
        by_cases h0 : right.rows.countP (fun s => keyAt rj s == keyAt lj r) = 0
        · rw [if_pos h0, h0]
          omega
        · rw [if_neg h0]
      have hmatched : right.rows.countP
            (fun s => f.rows.any fun r => keyAt lj r == keyAt rj s)
          ≤ (right.rows.map fun s =>
            f.rows.countP fun r => keyAt rj s == keyAt lj r).sum := by
        rw [countP_eq_sum_map]
        apply List.sum_le_sum
        intro s hsmem
        by_cases hany : (f.rows.any fun r => keyAt lj r == keyAt rj s) = true
        · rw [if_pos hany]
          obtain ⟨r, hrmem, hkey⟩ := List.any_eq_true.mp hany
          refine List.countP_pos_iff.mpr ⟨r, hrmem, ?_⟩
          rw [beq_iff_eq] at hkey ⊢
          exact hkey.symm
        · rw [if_neg hany]
          exact Nat.zero_le _
      calc right.rows.length
          = right.rows.countP (fun s => f.rows.any fun r => keyAt lj r == keyAt rj s)
            + right.rows.countP
                (fun s => !(f.rows.any fun r => keyAt lj r == keyAt rj s)) := hsplit.symm
        _ ≤ (f.rows.map fun r =>
              if right.rows.countP (fun s => keyAt rj s == keyAt lj r) = 0 then 1
              else right.rows.countP (fun s => keyAt rj s == keyAt lj r)).sum
            + right.rows.countP
                (fun s => !(f.rows.any fun r => keyAt lj r == keyAt rj s)) :=
          Nat.add_le_add
            (le_trans (le_trans hmatched (le_of_eq hcomm.symm)) hmge) (le_refl _)
  · -- with pairwise distinct right keys the output has at most |L| + |R| rows
    intro hnd
    rw [mergeOuterRows_length]
    have hsum : (f.rows.map fun r =>
          if right.rows.countP (fun s => keyAt rj s == keyAt lj r) = 0 then 1
          else right.rows.countP (fun s => keyAt rj s == keyAt lj r)).sum
        ≤ (f.rows.map fun _ => (1 : Nat)).sum := by
      apply List.sum_le_sum
      intro r hr
      have hle1 := countP_le_one_of_nodup_keys right.rows (keyAt lj r) hnd
      by_cases h0 : right.rows.countP (fun s => keyAt rj s == keyAt lj r) = 0
      · rw [if_pos h0]
      · rw [if_neg h0]
        exact hle1
    have hone : (f.rows.map fun _ => (1 : Nat)).sum = f.rows.length := by simp
    have hcle : right.rows.countP
          (fun s => !(f.rows.any fun r => keyAt lj r == keyAt rj s))
        ≤ right.rows.length := List.countP_le_length _
    exact Nat.add_le_add (hsum.trans (le_of_eq hone)) hcle

/-- Evaluation of C5 at concrete frames whose right keys are distinct. -/
theorem merge_outer_spec_witness :
    (∀ r ∈ wLeft.rows, ∃ o ∈ (wLeft.merge_outer wRight "id" "artist_id").rows,
        o.take wLeft.cols.length = r) ∧
    (∀ s ∈ wRight.rows, ∃ o ∈ (wLeft.merge_outer wRight "id" "artist_id").rows,
        o.drop wLeft.cols.length = s) ∧
    max wLeft.rows.length wRight.rows.length
      ≤ (wLeft.merge_outer wRight "id" "artist_id").rows.length ∧
    ((wRight.rows.map (keyAt 0)).Nodup →
      (wLeft.merge_outer wRight "id" "artist_id").rows.length
        ≤ wLeft.rows.length + wRight.rows.length) :=
  merge_outer_spec wLeft wRight "id" "artist_id" 0 0 rfl rfl (by decide)

theorem Value.leb_antisymm {a b : Value} (hab : Value.leb a b = true)
    (hba : Value.leb b a = true) : a = b := by
  cases a <;> cases b <;>
    simp_all only [Value.leb, decide_eq_true_eq, Bool.false_eq_true,
      Value.str.injEq, Value.num.injEq] <;>
    first
      | rfl
      | exact le_antisymm hab hba

theorem Frame.ext_of (f g : Frame) (h1 : f.cols = g.cols) (h2 : f.rows = g.rows)
    (h3 : f.indexCol = g.indexCol) : f = g := by
  cases f
  cases g
  simp_all

theorem perm_eq_of_length_le_one {α : Type} {l1 l2 : List α}
    (hp : l1.Perm l2) (hl : l1.length ≤ 1) : l1 = l2 := by
  cases l1 with
  | nil => exact (List.perm_nil.mp hp.symm).symm
  | cons a t =>
    cases t with
    | nil => exact (List.perm_singleton.mp hp.symm).symm
    | cons b u => simp at hl

/-- Two ascending-sorted permutations of the same rows coincide when the
sort keys are pairwise distinct. -/
theorem sorted_perm_eq_of_nodup_keys {j : Nat} :
    ∀ {l1 l2 : List Row}, l1.Perm l2 → l1.Sorted (rowLe j) → l2.Sorted (rowLe j) →
      (l1.map (keyAt j)).Nodup → l1 = l2 := by
  intro l1
  induction l1 with
  | nil =>
    intro l2 hp _ _ _
    exact (List.perm_nil.mp hp.symm).symm
  | cons a t1 ih =>
    intro l2 hp hs1 hs2 hnd
    cases l2 with
    | nil => exact absurd (List.perm_nil.mp hp) (by simp)
    | cons b t2 =>
      have hab : a = b := by
        by_contra hne
        have hain : a ∈ b :: t2 := hp.mem_iff.mp (List.mem_cons_self a t1)
        have hbin : b ∈ a :: t1 := hp.mem_iff.mpr (List.mem_cons_self b t2)
        have hat2 : a ∈ t2 := by
          rcases List.mem_cons.mp hain with h | h
          · exact absurd h hne
          · exact h
        have hbt1 : b ∈ t1 := by
          rcases List.mem_cons.mp hbin with h | h
          · exact absurd h.symm hne
          · exact h
        have h1 : rowLe j a b := List.rel_of_sorted_cons hs1 b hbt1
        have h2 : rowLe j b a := List.rel_of_sorted_cons hs2 a hat2
        have hk : keyAt j a = keyAt j b := Value.leb_antisymm h1 h2
        rw [List.map_cons, List.nodup_cons] at hnd
        apply hnd.1
        rw [hk]
        exact List.mem_map_of_mem _ hbt1
      subst hab
      have hp2 : t1.Perm t2 := hp.cons_inv
      rw [List.map_cons, List.nodup_cons] at hnd
      rw [ih hp2 hs1.of_cons hs2.of_cons hnd.2]

/-- C2 counterexample: the documented contract of the code's sort (default
kind quicksort, which pandas does not document as stable) admits, for an
already-sorted table with a tied name key, an output that is not identical
to the input and whose tied rows are reordered — so the claimed stability
and identical-result idempotence are not guaranteed by the code. -/
theorem sort_values_contract_counterexample :
    cSorted.colIdx "k" = some 0 ∧
    List.Sorted (rowLe 0) cSorted.rows ∧
    sortValuesSpec cSorted 0 cSwapped ∧
    cSwapped ≠ cSorted ∧
    cSwapped.rows.filter (fun r => keyAt 0 r == Value.num 1)
      ≠ cSorted.rows.filter (fun r => keyAt 0 r == Value.num 1) := by
  decide

/-- C2 (amended): `sort` returns a new table whose rows are an
ascending-sorted permutation of the original on the named column, nulls
last — the executable model satisfies this documented contract — but the
default sort kind is not documented stable, so tie order and
identical-result idempotence are guaranteed only when the sort column has
no tied values: then the contract admits exactly one output, rows with any
fixed key value keep their (trivial) original order, and re-sorting an
already-sorted table by the same column yields an identical table. -/
theorem sort_spec (f : Frame) (column_name : String) (j : Nat)
    (hc : f.colIdx column_name = some j) (hidx : f.indexCol = none) :
    sortValuesSpec f j (f.sort_values column_name) ∧
    ((f.rows.map (keyAt j)).Nodup →
      (∀ g1 g2, sortValuesSpec f j g1 → sortValuesSpec f j g2 → g1 = g2) ∧
      (∀ g, sortValuesSpec f j g → ∀ v : Value,
        g.rows.filter (fun r => keyAt j r == v)
          = f.rows.filter (fun r => keyAt j r == v)) ∧
      (∀ g g2, sortValuesSpec f j g → sortValuesSpec g j g2 → g2 = g)) := by
  constructor
  · have hs : f.sort_values column_name
        = ⟨f.cols, f.rows.insertionSort (rowLe j), none⟩ := by
      unfold Frame.sort_values
      rw [hc, hidx]
    rw [hs]
    exact ⟨rfl, hidx.symm, List.perm_insertionSort _ _, List.sorted_insertionSort _ _⟩
  · intro hnd
    refine ⟨?_, ?_, ?_⟩
    · rintro g1 g2 ⟨hc1, hi1, hp1, hs1⟩ ⟨hc2, hi2, hp2, hs2⟩
      apply Frame.ext_of
      · rw [hc1, hc2]
      · exact sorted_perm_eq_of_nodup_keys (hp1.trans hp2.symm) hs1 hs2
          ((hp1.map (keyAt j)).nodup_iff.mpr hnd)
      · rw [hi1, hi2]
    · rintro g ⟨-, -, hpg, -⟩ v
      have hfp : (g.rows.filter fun r => keyAt j r == v).Perm
          (f.rows.filter fun r => keyAt j r == v) := hpg.filter _
      have hlen : (f.rows.filter fun r => keyAt j r == v).length ≤ 1 := by
        rw [← List.countP_eq_length_filter]
        exact countP_le_one_of_nodup_keys f.rows v hnd
      exact (perm_eq_of_length_le_one hfp.symm hlen).symm
    · rintro g g2 ⟨hcg, hig, hpg, hsg⟩ ⟨hcg2, hig2, hpg2, hsg2⟩
      apply Frame.ext_of
      · rw [hcg2]
      · exact sorted_perm_eq_of_nodup_keys hpg2 hsg2 hsg
          (((hpg2.trans hpg).map (keyAt j)).nodup_iff.mpr hnd)
      · rw [hig2]

/-- Evaluation of C2 at a concrete frame whose name keys are distinct. -/
theorem sort_spec_witness :
    sortValuesSpec wFrame4 0 (wFrame4.sort_values "name") ∧
    ((wFrame4.rows.map (keyAt 0)).Nodup →
      (∀ g1 g2, sortValuesSpec wFrame4 0 g1 → sortValuesSpec wFrame4 0 g2 → g1 = g2) ∧
      (∀ g, sortValuesSpec wFrame4 0 g → ∀ v : Value,
        g.rows.filter (fun r => keyAt 0 r == v)
          = wFrame4.rows.filter (fun r => keyAt 0 r == v)) ∧
      (∀ g g2, sortValuesSpec wFrame4 0 g → sortValuesSpec g 0 g2 → g2 = g)) :=
  sort_spec wFrame4 "name" 0 rfl rfl

end SpotifyETL
